import Mathlib

/- Verification of the diy-agent conversation orchestration and tool execution
   engine. The development shallowly embeds the diff engine (tools.ts
   generateDiff and getChangeSnippet), the edit_file tool (tools.ts
   EditFileTool.execute), the tool execution supervisor (agent.ts
   executeTools and validateInput) and the conversation loop (agent.ts run
   and runInference), and proves the specified properties about them.
   File-system, network and timer effects are abstracted: file contents are
   passed in and requested writes are returned; the model backend and the
   per-call timeout race are oracles supplied to the embedded control flow. -/

namespace DiyAgent

/- ## String helpers -/

/-- Single-quote character, used to build the source's quoted messages. -/
def sq : String := String.singleton (Char.ofNat 39)

/-- Whether the second list is a prefix of the first, on characters. -/
def startsWithList : List Char → List Char → Bool
  | _, [] => true
  | [], _ :: _ => false
  | c :: cs, p :: ps => (c == p) && startsWithList cs ps

/-- Left-to-right scan splitting at each non-overlapping occurrence of the
    separator. The fuel argument dominates the number of steps (callers
    pass the source length plus one, which always suffices since every step
    consumes at least one character). -/
def splitOnCharsF (sep : List Char) : Nat → List Char → List Char → List (List Char)
  | _, [], acc => [acc.reverse]
  | 0, cs, acc => [acc.reverse ++ cs]
  | fuel + 1, c :: cs, acc =>
    if startsWithList (c :: cs) sep then
      acc.reverse :: splitOnCharsF sep fuel (List.drop (sep.length - 1) cs) []
    else
      splitOnCharsF sep fuel cs (c :: acc)

/-- JS String.prototype.split with a plain string separator (the source
    only ever passes nonempty separators). -/
def jsSplit (s sep : String) : List String :=
  if sep = "" then [s]
  else (splitOnCharsF sep.toList (s.toList.length + 1) s.toList []).map String.mk

/-- The whitespace characters relevant to trimming console input. -/
def isTrimChar (c : Char) : Bool := c == ' ' || c == '\t' || c == '\n' || c == '\r'

/-- JS String.prototype.trim (the approval answers are console lines). -/
def jsTrim (s : String) : String :=
  String.mk (((s.toList.dropWhile isTrimChar).reverse.dropWhile isTrimChar).reverse)

/-- JS String.prototype.toLowerCase, characterwise. -/
def jsToLower (s : String) : String := String.mk (s.toList.map Char.toLower)

/-- JS String.prototype.endsWith for a plain suffix. -/
def endsWithStr (s suffix : String) : Bool :=
  startsWithList s.toList.reverse suffix.toList.reverse

/-- JS String.prototype.padStart with a one-space pad string. -/
def padStart (s : String) (width : Nat) : String :=
  if width ≤ s.length then s
  else String.mk (List.replicate (width - s.length) ' ') ++ s

/-- First n characters of a string (JS slice(0, n)). -/
def strTake (s : String) (n : Nat) : String := String.mk (s.toList.take n)

/-- JS String.prototype.split at the separator "\n" (text to line list). -/
def splitLines (s : String) : List String := jsSplit s "\n"

/-- JS String.prototype.replace with a plain nonempty string pattern:
    replaces the first occurrence only. -/
def replaceFirst (s pat repl : String) : String :=
  match jsSplit s pat with
  | [] => s
  | [x] => x
  | x :: rest => x ++ repl ++ String.intercalate pat rest

/-- JS String.prototype.indexOf, restricted to the information the source
    consumes: the character position of the first occurrence, if any. -/
def indexOfStr (s pat : String) : Option Nat :=
  if pat = "" then some 0
  else
    match jsSplit s pat with
    | x :: _ :: _ => some x.length
    | _ => none

/- ## Diff engine (tools.ts generateDiff, lines 334-498) -/

/-- One changed region produced by the diff scan (an entry of the internal
    changes array of generateDiff). -/
structure DiffChange where
  oldStart : Nat
  oldCount : Nat
  newStart : Nat
  newCount : Nat
  oldChunk : List String
  newChunk : List String
deriving DecidableEq

/-- The confirmation window of the resynchronization scan: for k = 1, 2 the
    lines after the candidate sync point must not differ (positions out of
    range on either side are not checked). -/
def confirmWindow (old new : List String) (a b : Nat) : Bool :=
  (List.range' 1 2).all fun k =>
    if a + k < old.length ∧ b + k < new.length then
      old.getD (a + k) "" == new.getD (b + k) ""
    else true

/-- One candidate split of the lookahead: old consumes oi lines, new
    consumes ni lines, the lines at the sync point exist and match, and the
    confirmation window agrees. -/
def candidateOK (old new : List String) (i j oi ni : Nat) : Bool :=
  if i + oi < old.length ∧ j + ni < new.length then
    (old.getD (i + oi) "" == new.getD (j + ni) "") && confirmWindow old new (i + oi) (j + ni)
  else false

/-- For one lookahead window, try every split oi = 0 .. lookAhead in order. -/
def findSyncInner (old new : List String) (i j lookAhead : Nat) : Option (Nat × Nat) :=
  (List.range (lookAhead + 1)).findSome? fun oi =>
    if candidateOK old new i j oi (lookAhead - oi) then some (oi, lookAhead - oi) else none

/-- The resynchronization search: lookahead windows 1 .. 49 in order, first
    accepted split wins. -/
def findSync (old new : List String) (i j : Nat) : Option (Nat × Nat) :=
  (List.range' 1 49).findSome? fun lookAhead => findSyncInner old new i j lookAhead

/-- The diff scan loop of generateDiff: walk both cursors over equal lines;
    on a mismatch resynchronize, emitting the consumed spans as a
    DiffChange, or, when no resynchronization is found within the bound,
    emit the remainder of both texts as one final change and stop. -/
def computeChangesAux (old new : List String) (i j : Nat) : List DiffChange :=
  if h1 : i < old.length ∧ j < new.length ∧ old.getD i "" = new.getD j "" then
    computeChangesAux old new (i + 1) (j + 1)
  else if h2 : old.length ≤ i ∧ new.length ≤ j then
    []
  else
    match hs : findSync old new i j with
    | some (oi, ni) =>
      { oldStart := i, oldCount := oi, newStart := j, newCount := ni,
        oldChunk := (old.drop i).take oi, newChunk := (new.drop j).take ni } ::
      computeChangesAux old new (i + oi) (j + ni)
    | none =>
      [{ oldStart := i, oldCount := old.length - i, newStart := j,
         newCount := new.length - j, oldChunk := old.drop i, newChunk := new.drop j }]
termination_by old.length + new.length - (i + j)
decreasing_by
  · obtain ⟨hi, hj, -⟩ := h1
    omega
  · have hb : i + oi < old.length ∧ j + ni < new.length ∧ 1 ≤ oi + ni := by
      obtain ⟨la, hla, hinner⟩ := List.exists_of_findSome?_eq_some hs
      obtain ⟨oi2, hoi2, hif⟩ := List.exists_of_findSome?_eq_some hinner
      split at hif
      · rename_i hcond
        injection hif with hpair
        have hoi : oi2 = oi := congrArg Prod.fst hpair
        have hni : la - oi2 = ni := congrArg Prod.snd hpair
        unfold candidateOK at hcond
        split at hcond
        · rename_i hbound
          have h1a : 1 ≤ la := by
            obtain ⟨t, ht, hla2⟩ := List.mem_range'.mp hla
            omega
          have h2a : oi2 < la + 1 := List.mem_range.mp hoi2
          obtain ⟨hb1, hb2⟩ := hbound
          omega
        · exact absurd hcond (by simp)
      · exact absurd hif (by simp)
    omega

/-- generateDiff's change list for two line sequences (the value of the
    internal changes array after the scan). -/
def computeChanges (old new : List String) : List DiffChange :=
  computeChangesAux old new 0 0

/-- Applying a change list to the old line sequence from position pos:
    unchanged lines are copied up to each change's start, each change's old
    span is dropped and its new span inserted in its place. This is the
    claim's notion of applying the emitted diff to reconstruct the new
    text. -/
def applyChangesFrom (old : List String) (pos : Nat) : List DiffChange → List String
  | [] => old.drop pos
  | c :: cs =>
    (old.drop pos).take (c.oldStart - pos) ++ c.newChunk ++
      applyChangesFrom old (c.oldStart + c.oldCount) cs

/-- Apply a full change list to the old line sequence. -/
def applyChanges (old : List String) (cs : List DiffChange) : List String :=
  applyChangesFrom old 0 cs

/- ## Diff rendering (the annotated patch text) -/

/-- ANSI colour code record (constants.ts COLOURS). -/
structure Colours where
  reset : String
  bold : String
  dim : String
  blue : String
  cyan : String
  green : String
  yellow : String
  red : String
  grey : String
  bgRed : String
  bgGreen : String

/-- constants.ts COLOURS values. -/
def COLOURS : Colours :=
  { reset := "\x1b[0m", bold := "\x1b[1m", dim := "\x1b[2m", blue := "\x1b[94m",
    cyan := "\x1b[36m", green := "\x1b[32m", yellow := "\x1b[93m", red := "\x1b[31m",
    grey := "\x1b[90m", bgRed := "\x1b[41m", bgGreen := "\x1b[42m" }

/-- The 80-character horizontal rule of the diff header and footer. -/
def hrule : String := String.mk (List.replicate 80 '─')

/-- Render one DiffChange as its block of diff lines: the hunk header,
    dimmed context before, removed lines, added lines, dimmed context after
    and a trailing blank line. Line numbers number each printed line by its
    position in the respective text. -/
def renderChange (oldLines newLines : List String) (contextLines : Nat) (c : DiffChange) :
    List String :=
  let ctxBefore := min contextLines c.oldStart
  let ctxAfterOld := min contextLines (oldLines.length - (c.oldStart + c.oldCount))
  let ctxAfterNew := min contextLines (newLines.length - (c.newStart + c.newCount))
  let blockOldStart : Int := (c.oldStart : Int) - (ctxBefore : Int) + 1
  let blockOldLen : Int := (ctxBefore : Int) + (c.oldCount : Int) + (ctxAfterOld : Int)
  let blockNewStart : Int := (c.newStart : Int) - (ctxBefore : Int) + 1
  let blockNewLen : Int := (ctxBefore : Int) + (c.newCount : Int) + (min ctxAfterOld ctxAfterNew : Int)
  let header :=
    COLOURS.bold ++ COLOURS.cyan ++ "@@ Lines before & after: " ++ toString blockOldStart ++ "-" ++
      toString (blockOldStart + blockOldLen - 1) ++ " → " ++ toString blockNewStart ++ "-" ++
      toString (blockNewStart + blockNewLen - 1) ++ " @@" ++ COLOURS.reset
  let before := (List.range ctxBefore).map fun t =>
    let k := c.oldStart - ctxBefore + t
    COLOURS.grey ++ padStart (toString (k + 1)) 4 ++ " │" ++ COLOURS.reset ++
      COLOURS.dim ++ "   " ++ oldLines.getD k "" ++ COLOURS.reset
  let removed := (List.range c.oldChunk.length).map fun idx =>
    COLOURS.grey ++ padStart (toString (c.oldStart + idx + 1)) 4 ++ " │" ++ COLOURS.reset ++
      COLOURS.red ++ COLOURS.bold ++ " - " ++ c.oldChunk.getD idx "" ++ COLOURS.reset
  let added := (List.range c.newChunk.length).map fun idx =>
    COLOURS.grey ++ padStart (toString (c.newStart + idx + 1)) 4 ++ " │" ++ COLOURS.reset ++
      COLOURS.green ++ COLOURS.bold ++ " + " ++ c.newChunk.getD idx "" ++ COLOURS.reset
  let after := (List.range ctxAfterOld).filterMap fun k =>
    let idx := c.oldStart + c.oldCount + k
    if idx < oldLines.length then
      some (COLOURS.grey ++ padStart (toString (idx + 1)) 4 ++ " │" ++ COLOURS.reset ++
        COLOURS.dim ++ "   " ++ oldLines.getD idx "" ++ COLOURS.reset)
    else none
  header :: (before ++ removed ++ added ++ after ++ [""])

/-- tools.ts generateDiff: compute the change list for the two texts and
    render it as the annotated patch, or return the explicit no-changes
    marker when the change list is empty. -/
def generateDiff (oldContent newContent filePath : String) (contextLines : Nat) : String :=
  let oldLines := splitLines oldContent
  let newLines := splitLines newContent
  let changes := computeChanges oldLines newLines
  if changes.isEmpty then "(no changes)"
  else
    let top := [COLOURS.bold ++ COLOURS.grey ++ hrule ++ COLOURS.reset,
      COLOURS.bold ++ COLOURS.cyan ++ " " ++ filePath ++ COLOURS.reset,
      COLOURS.bold ++ COLOURS.grey ++ hrule ++ COLOURS.reset, ""]
    let body := (changes.map (renderChange oldLines newLines contextLines)).flatten
    String.intercalate "\n" (top ++ body ++ [COLOURS.bold ++ COLOURS.grey ++ hrule ++ COLOURS.reset])

/-- Skip characters up to and including the next lowercase m (the tail of
    an ANSI escape sequence). -/
def dropThroughM : List Char → List Char
  | [] => []
  | c :: rest => if c = 'm' then rest else dropThroughM rest

/-- tools.ts stripAnsiForAgentJson, on the character list: drop every
    ESC [ ... m escape sequence, copy everything else. The fuel argument
    dominates the number of steps (the caller passes the length, which
    always suffices since every step consumes at least one character). -/
def stripAnsiAuxF : Nat → List Char → List Char
  | _, [] => []
  | 0, cs => cs
  | fuel + 1, c :: rest =>
    if c == Char.ofNat 27 && rest.head? == some '[' then
      stripAnsiAuxF fuel (dropThroughM rest.tail)
    else c :: stripAnsiAuxF fuel rest

/-- tools.ts stripAnsiForAgentJson. -/
def stripAnsiForAgentJson (s : String) : String :=
  String.mk (stripAnsiAuxF s.toList.length s.toList)

/-- tools.ts formatLineNumbers: prefix each line with its right-aligned
    line number and a separator bar. -/
def formatLineNumbers (lines : List String) (startLine : Nat) : String :=
  let maxLineNum := startLine + lines.length - 1
  let gutterWidth := (toString maxLineNum).length
  String.intercalate "\n"
    ((List.range lines.length).map fun t =>
      padStart (toString (startLine + t)) gutterWidth ++ " | " ++ lines.getD t "")

/-- The record returned by tools.ts getChangeSnippet. -/
structure ChangeSnippet where
  start_line : Nat
  end_line : Nat
  snippet : String
deriving DecidableEq

/-- tools.ts getChangeSnippet: locate the changed text inside the final
    content and return the bounds of a context snippet around it, plus the
    numbered snippet itself. -/
def getChangeSnippet (content changedStr : String) (contextLines : Nat) : ChangeSnippet :=
  match indexOfStr content changedStr with
  | none => { start_line := 1, end_line := 1, snippet := "" }
  | some changeStart =>
    let lines := splitLines content
    let linesBefore := splitLines (strTake content changeStart)
    let startLine := linesBefore.length
    let changeLines := (splitLines changedStr).length
    let endLine := startLine + changeLines - 1
    let snippetStart := startLine - 1 - contextLines
    let snippetEnd := min lines.length (endLine + contextLines)
    let snippetLines := (lines.drop snippetStart).take (snippetEnd - snippetStart)
    { start_line := snippetStart + 1, end_line := snippetEnd,
      snippet := formatLineNumbers snippetLines (snippetStart + 1) }

/- ## Untyped tool input values (the JSON bodies of tool invocations) -/

/-- A JSON-like value, the shape of a tool invocation's untyped input. -/
inductive JVal where
  | jnull
  | jbool (b : Bool)
  | jnum (n : Int)
  | jstr (s : String)
  | jarr (xs : List JVal)
  | jobj (fields : List (String × JVal))

/-- First binding of a key in an object's field list. -/
def lookupField (fields : List (String × JVal)) (key : String) : Option JVal :=
  (fields.find? fun p => p.fst == key).map Prod.snd

/-- Read a string-valued field of an object input (the tool code's
    field-as-string cast). -/
def getStrField (v : JVal) (key : String) : Option String :=
  match v with
  | .jobj fields =>
    match lookupField fields key with
    | some (.jstr s) => some s
    | _ => none
  | _ => none

/-- JS truthiness of a JSON value. -/
def jTruthy : JVal → Bool
  | .jnull => false
  | .jbool b => b
  | .jnum n => n != 0
  | .jstr s => s != ""
  | .jarr _ => true
  | .jobj _ => true

/-- The edit tool's confirm flag: input.confirm as boolean, defaulted to
    false (JS truthiness of the field when present). -/
def confirmTruthy (v : JVal) : Bool :=
  match v with
  | .jobj fields =>
    match lookupField fields "confirm" with
    | some w => jTruthy w
    | none => false
  | _ => false

/- ## The edit_file tool (tools.ts EditFileTool.execute, lines 583-780) -/

/-- The structured result an edit_file call serializes back to the model:
    one constructor per distinct result object shape of the source. -/
inductive EditResult where
  | error (msg : String)
  | previewCreate (path : String) (lines : Nat) (content_preview message : String)
  | created (path : String) (lines : Nat)
  | previewAppend (path diff message : String)
  | appended (path : String) (lines_added new_total_lines : Nat)
  | preview (action path diff : String) (start_line end_line : Nat) (message : String)
  | success (action path : String) (start_line end_line : Nat) (snippet : String)
deriving DecidableEq

/-- The change_location field of a result, when the result carries one. -/
def resultChangeLoc : EditResult → Option (Nat × Nat)
  | .preview _ _ _ a b _ => some (a, b)
  | .success _ _ a b _ => some (a, b)
  | _ => none

/-- tools.ts EditFileTool.execute, with the file system abstracted: the
    file's current content (none when the file does not exist) is passed
    in, and the pair returned is the result plus the content written to
    disk, if any (none means no write was performed). Path resolution is
    identity here (the claims never depend on cwd or tilde expansion). -/
def editFileExecute (oldStr : Option String) (newStr : String) (inputPath : String)
    (modeIn : Option String) (confirm : Bool) (fileContent : Option String) :
    EditResult × Option String :=
  let mode := match modeIn with
    | none => "replace"
    | some "" => "replace"
    | some m => m
  let validModes := ["replace", "insert_before", "insert_after", "append"]
  if !(validModes.contains mode) then
    (.error ("Invalid mode " ++ sq ++ mode ++ sq ++ ". Must be one of: " ++
      String.intercalate ", " validModes), none)
  else if mode = "replace" ∧ oldStr = some newStr then
    (.error (sq ++ "old_str" ++ sq ++ " and " ++ sq ++ "new_str" ++ sq ++
      " must be different in replace mode."), none)
  else
    match fileContent with
    | none =>
      if (match oldStr with | some s => s != "" | none => false) || (mode == "append") then
        (.error ("File " ++ sq ++ inputPath ++ sq ++ " not found. Cannot edit a file that doesn" ++
          sq ++ "t exist. Use use_bash (e.g. find or ls) to check available files."), none)
      else if !confirm then
        (.previewCreate inputPath (splitLines newStr).length
          (if newStr.length > 500 then strTake newStr 500 ++ "\n... [truncated]" else newStr)
          ("Set " ++ sq ++ "confirm: true" ++ sq ++ " to create this file."), none)
      else
        (.created inputPath (splitLines newStr).length, some newStr)
    | some content =>
      if mode = "append" then
        let separator := if endsWithStr content "\n" then "" else "\n"
        let newContent := content ++ separator ++ newStr
        if !confirm then
          (.previewAppend inputPath (stripAnsiForAgentJson (generateDiff content newContent inputPath 3))
            ("Set " ++ sq ++ "confirm: true" ++ sq ++ " to write these changes."), none)
        else
          (.appended inputPath (splitLines newStr).length (splitLines newContent).length,
            some newContent)
      else
        match oldStr with
        | none =>
          (.error (sq ++ "old_str" ++ sq ++
            " is required for replace, insert_before, and insert_after modes. To see the current contents, use read_file first."), none)
        | some oldS =>
          if oldS = "" then
            (.error (sq ++ "old_str" ++ sq ++
              " is required for replace, insert_before, and insert_after modes. To see the current contents, use read_file first."), none)
          else
            let occurrences := (jsSplit content oldS).length - 1
            if occurrences = 0 then
              (.error ("String not found in " ++ sq ++ inputPath ++ sq ++
                ". Use read_file (with show_line_numbers and/or search) to check the current file contents and copy the exact text."), none)
            else if occurrences > 1 then
              (.error ("Found " ++ toString occurrences ++ " occurrences of old_str in " ++ sq ++
                inputPath ++ sq ++
                ". Include more surrounding context in old_str to match exactly one location."), none)
            else
              let newContent :=
                if mode = "insert_before" then replaceFirst content oldS (newStr ++ "\n" ++ oldS)
                else if mode = "insert_after" then replaceFirst content oldS (oldS ++ "\n" ++ newStr)
                else replaceFirst content oldS newStr
              let actionLabel :=
                if mode = "insert_before" then "inserted_before"
                else if mode = "insert_after" then "inserted_after"
                else "replaced"
              let changedText :=
                if mode = "replace" then newStr
                else if mode = "insert_before" then newStr ++ "\n" ++ oldS
                else oldS ++ "\n" ++ newStr
              let snip := getChangeSnippet newContent changedText 3
              if !confirm then
                (.preview actionLabel inputPath
                  (stripAnsiForAgentJson (generateDiff content newContent inputPath 3))
                  snip.start_line snip.end_line
                  ("Set " ++ sq ++ "confirm: true" ++ sq ++ " to write these changes."), none)
              else
                (.success actionLabel inputPath snip.start_line snip.end_line snip.snippet,
                  some newContent)

/- ## Tool execution supervisor (agent.ts executeTools, lines 194-309,
      and validateInput, lines 310-326) -/

/-- The slice of a ToolDefinition the supervisor consults: its unique name
    and the required field names of its input schema. -/
structure ToolDefM where
  name : String
  required : List String
deriving DecidableEq

/-- The tool catalog wired up in main, in registration order, with each
    input schema's required list (tools.ts). -/
def toolCatalog : List ToolDefM :=
  [{ name := "get_current_datetime", required := [] },
   { name := "read_file", required := ["path"] },
   { name := "edit_file", required := ["path", "new_str"] },
   { name := "ltft_calculator",
     required := ["current_cct_date", "current_work_percentage", "proposed_work_percentage",
       "proposed_start_date"] },
   { name := "use_bash", required := ["command"] }]

/-- agent.ts validateInput: the input must be a plain object and every
    schema-required field name must be present as a key. Returns the thrown
    error message on failure, none on success. -/
def validateInput (input : JVal) (required : List String) : Option String :=
  match input with
  | .jobj fields =>
    let missing := required.filter fun f => !((fields.map Prod.fst).contains f)
    if missing.isEmpty then none
    else some ("Missing required fields: " ++ String.intercalate ", " missing)
  | _ => some "Input must be a valid object"

/-- A tool invocation request produced by the backend (name, untyped input,
    correlation id). -/
structure ToolUseReq where
  id : String
  name : String
  input : JVal

/-- The approval predicate of the edit_file gate: the next interactive
    line, trimmed and lowercased, must be exactly yes or y; a null answer
    (end of input) never grants approval. -/
def approvalGranted (approval : Option String) : Bool :=
  match approval with
  | some s => (jsToLower (jsTrim s) == "yes") || (jsToLower (jsTrim s) == "y")
  | none => false

/-- The gate condition of agent.ts executeTools: the tool is edit_file and
    its input is an object whose confirm field is strictly true. -/
def needsApproval (name : String) (input : JVal) : Bool :=
  name == "edit_file" &&
    (match input with
     | .jobj fields =>
       match lookupField fields "confirm" with
       | some (.jbool true) => true
       | _ => false
     | _ => false)

/-- Outcome of racing a tool's execute promise against the 30 second
    timeout: the execution resolved first, rejected first, or the timeout
    fired first. Supplied as an oracle since it depends on real time. -/
inductive RaceOutcome where
  | completed (result : String)
  | threw (msg : String)
  | timedOut
deriving DecidableEq, Inhabited

/-- A tool_result block parameter as appended to the conversation. The
    source omits is_error on the success path; that is modeled as
    is_error false. -/
structure ToolResultParam where
  tool_use_id : String
  content : String
  is_error : Bool
deriving DecidableEq, Inhabited

/-- The JSON payload of the approval-declined error result. -/
def editCancelledJson : String :=
  "\x7b\"error\":\"Edit cancelled by user. The changes were not made.\"\x7d"

/-- The supervisor pipeline for one tool invocation request: tool lookup,
    input validation, the edit_file approval gate, then the execution race
    (whose outcome is the oracle argument). -/
def executeToolOne (tools : List ToolDefM) (req : ToolUseReq) (approval : Option String)
    (race : RaceOutcome) : ToolResultParam :=
  match tools.find? fun t => t.name == req.name with
  | none =>
    { tool_use_id := req.id, content := "Error: Tool " ++ req.name ++ " not found",
      is_error := true }
  | some toolDef =>
    match validateInput req.input toolDef.required with
    | some msg => { tool_use_id := req.id, content := msg, is_error := true }
    | none =>
      if needsApproval req.name req.input && !(approvalGranted approval) then
        { tool_use_id := req.id, content := editCancelledJson, is_error := true }
      else
        match race with
        | .completed r => { tool_use_id := req.id, content := r, is_error := false }
        | .threw msg => { tool_use_id := req.id, content := msg, is_error := true }
        | .timedOut =>
          { tool_use_id := req.id, content := "Tool execution timed out after 30s",
            is_error := true }

/-- agent.ts executeTools: every request of the batch is processed by the
    same per-request pipeline; Promise.all preserves order, so the result
    list is the pointwise image of the request list. Each request has its
    own approval answer and race outcome oracle, indexed by position. -/
def executeTools (tools : List ToolDefM) (reqs : List ToolUseReq)
    (approvals : Nat → Option String) (races : Nat → RaceOutcome) : List ToolResultParam :=
  (List.range reqs.length).map fun k =>
    executeToolOne tools (reqs.getD k { id := "", name := "", input := .jnull })
      (approvals k) (races k)

/-- Whether the pipeline reaches the execution race for a request: the tool
    resolves, validation passes, and the approval gate (when it applies) is
    granted. -/
def reachesExec (tools : List ToolDefM) (req : ToolUseReq) (approval : Option String) : Bool :=
  match tools.find? fun t => t.name == req.name with
  | none => false
  | some toolDef =>
    (validateInput req.input toolDef.required).isNone &&
      (!(needsApproval req.name req.input) || approvalGranted approval)

/-- The supervisor boundary's view of an edit_file call, with the result
    payload kept structured instead of JSON-serialized. -/
inductive SupervisedOutcome where
  | notFound (msg : String)
  | invalid (msg : String)
  | cancelled (msg : String)
  | completed (result : EditResult)
deriving DecidableEq

/-- is_error of the ToolResult the supervisor builds for each outcome: the
    tool body never rejects (it returns its errors as JSON payloads), so a
    completed execution is reported without the error flag. -/
def outcomeIsError : SupervisedOutcome → Bool
  | .notFound _ => true
  | .invalid _ => true
  | .cancelled _ => true
  | .completed _ => false

/-- The supervisor pipeline specialized to the edit_file tool, composed
    with the tool body itself (modeled as completing before the timeout):
    lookup, validation, the approval gate, then EditFileTool.execute on the
    abstracted file system. The second component is the write performed, if
    any. -/
def superviseEditFS (req : ToolUseReq) (approval : Option String)
    (fileContent : Option String) : SupervisedOutcome × Option String :=
  match toolCatalog.find? fun t => t.name == req.name with
  | none => (.notFound ("Error: Tool " ++ req.name ++ " not found"), none)
  | some toolDef =>
    match validateInput req.input toolDef.required with
    | some msg => (.invalid msg, none)
    | none =>
      if needsApproval req.name req.input && !(approvalGranted approval) then
        (.cancelled "Edit cancelled by user. The changes were not made.", none)
      else
        let r := editFileExecute (getStrField req.input "old_str")
          ((getStrField req.input "new_str").getD "")
          ((getStrField req.input "path").getD "")
          (getStrField req.input "mode")
          (confirmTruthy req.input)
          fileContent
        (.completed r.1, r.2)

/- ## Conversation loop (agent.ts run, lines 28-110, and runInference,
      lines 131-192) -/

/-- Message roles. -/
inductive Role where
  | user
  | assistant
deriving DecidableEq

/-- A content block of a message. -/
inductive Block where
  | text (s : String)
  | toolUse (id name : String) (input : JVal)
  | toolResult (tool_use_id content : String) (is_error : Bool)

/-- Message content: a plain string or a block sequence. -/
inductive MContent where
  | str (s : String)
  | blocks (bs : List Block)

/-- A conversation message. -/
structure Message where
  role : Role
  content : MContent

/-- The safe-boundary test of the history bounding step: a user message
    whose content is a plain string. -/
def isPlainUser (m : Message) : Bool :=
  match m.role, m.content with
  | .user, .str _ => true
  | _, _ => false

/-- A plain-text user message, as run appends for console input. -/
def userMsg (s : String) : Message := { role := .user, content := .str s }

/-- The forward walk of the bounding step: from index i, the first index
    holding a plain-string user message (or the length when none is). -/
def findSafeBoundaryAux (conv : List Message) : Nat → Nat → Nat
  | 0, i => i
  | fuel + 1, i =>
    if h : i < conv.length then
      if isPlainUser (conv.get ⟨i, h⟩) then i else findSafeBoundaryAux conv fuel (i + 1)
    else i

/-- The forward walk, with fuel covering the distance to the end. -/
def findSafeBoundary (conv : List Message) (i : Nat) : Nat :=
  findSafeBoundaryAux conv (conv.length - i) i

/-- The history bounding step of agent.ts run: when the conversation
    exceeds 50 messages, walk forward from length - 50 to a safe boundary
    and drop everything before it. -/
def boundConversation (conv : List Message) : List Message :=
  if conv.length > 50 then
    conv.drop (findSafeBoundary conv (conv.length - 50))
  else conv

/-- The backend's stop reason, as consumed by runInference (only the
    comparison with tool_use matters). -/
inductive StopReason where
  | toolUse
  | endTurn
deriving DecidableEq

/-- One backend response: content blocks plus stop reason. -/
structure Response where
  content : List Block
  stop_reason : StopReason

/-- constants.ts MAX_TOOL_TURNS. -/
def MAX_TOOL_TURNS : Nat := 10

/-- Whether a block is a tool invocation. -/
def isToolUseBlock : Block → Bool
  | .toolUse _ _ _ => true
  | _ => false

/-- Whether a block is a tool result. -/
def isToolResultBlock : Block → Bool
  | .toolResult _ _ _ => true
  | _ => false

/-- What one runInference call produces: the returned content, the
    conversation as mutated by the inner loop, the number of tool batches
    dispatched, and whether the tool-turn limit aborted the loop. -/
structure InferResult where
  content : List Block
  conv : List Message
  dispatches : Nat
  aborted : Bool

/-- agent.ts runInference: consume backend responses in order; on a
    response carrying tool_use blocks with stop reason tool_use, increment
    the turn counter, abort past MAX_TOOL_TURNS, otherwise dispatch the
    batch (the exec argument stands for executeTools) and append the
    assistant message and the tool-result user message; any other response
    ends the loop. An exhausted oracle ends the loop with empty content. -/
def runInferenceAux (exec : List Block → List Block) (conv : List Message) (toolTurns : Nat) :
    List Response → InferResult
  | [] => { content := [], conv := conv, dispatches := 0, aborted := false }
  | r :: rest =>
    let currentContent := r.content
    let toolUseBlocks := currentContent.filter isToolUseBlock
    if toolUseBlocks.length > 0 && (r.stop_reason == .toolUse) then
      if toolTurns + 1 > MAX_TOOL_TURNS then
        { content := currentContent, conv := conv, dispatches := 0, aborted := true }
      else
        let toolResults := exec toolUseBlocks
        let res := runInferenceAux exec
          (conv ++ [{ role := .assistant, content := .blocks currentContent },
                    { role := .user, content := .blocks toolResults }])
          (toolTurns + 1) rest
        { content := res.content, conv := res.conv, dispatches := res.dispatches + 1,
          aborted := res.aborted }
    else
      { content := currentContent, conv := conv, dispatches := 0, aborted := false }

/-- One user turn of the inner loop, starting with a fresh tool-turn
    counter, as run invokes it. -/
def runInference (exec : List Block → List Block) (conv : List Message)
    (responses : List Response) : InferResult :=
  runInferenceAux exec conv 0 responses

/-- A well-behaved executor for concrete traces: one tool_result block per
    tool_use block, carrying its id. -/
def execSimple (bs : List Block) : List Block :=
  bs.filterMap fun b =>
    match b with
    | .toolUse id _ _ => some (.toolResult id "ok" false)
    | _ => none

/-- Whether a message's content contains a tool invocation block. -/
def msgHasToolUse (m : Message) : Bool :=
  match m.content with
  | .blocks bs => bs.any isToolUseBlock
  | .str _ => false

/-- Whether a message is a user message whose content is a sequence of
    tool result blocks. -/
def isToolResultsMsg (m : Message) : Bool :=
  match m.role, m.content with
  | .user, .blocks bs => bs.all isToolResultBlock
  | _, _ => false

/-- The pairing invariant of the spec's data model: every assistant
    message carrying a tool invocation is immediately followed by a user
    message whose content is a sequence of tool result blocks. -/
def pairingOK : List Message → Bool
  | [] => true
  | m :: rest =>
    (if m.role == .assistant && msgHasToolUse m then
      match rest with
      | m2 :: _ => isToolResultsMsg m2
      | [] => false
     else true) && pairingOK rest

/-- A backend response requesting one tool call with stop reason
    tool_use. -/
def sampleToolUseResponse : Response :=
  { content := [Block.toolUse "toolu_01" "get_current_datetime" (JVal.jobj [])],
    stop_reason := .toolUse }

/-- Eleven consecutive tool-use responses: the turn-limit scenario. -/
def responses11 : List Response := List.replicate 11 sampleToolUseResponse

/- ## Concrete fixtures used by witnesses and counterexamples -/

/-- A default message for list indexing (not a plain user message). -/
def dummyMsg : Message := { role := .assistant, content := .str "" }

/-- Fifty plain user messages, the base of the truncation scenarios. -/
def conv50 : List Message := List.replicate 50 (userMsg "x")

/-- A datetime tool request with correlation id tu_1. -/
def reqDT1 : ToolUseReq := { id := "tu_1", name := "get_current_datetime", input := .jobj [] }

/-- A datetime tool request with correlation id tu_2. -/
def reqDT2 : ToolUseReq := { id := "tu_2", name := "get_current_datetime", input := .jobj [] }

/-- Race oracle where only the first request of the batch times out. -/
def racesW : Nat → RaceOutcome := fun k => if k = 0 then .timedOut else .completed "ok"

/-- Approval oracle answering end-of-input everywhere. -/
def approvalsW : Nat → Option String := fun _ => none

/-- An edit_file request with confirm strictly true. -/
def reqEditConfirm : ToolUseReq :=
  { id := "tu_edit", name := "edit_file",
    input := .jobj [("path", .jstr "f.txt"), ("old_str", .jstr "b"), ("new_str", .jstr "B"),
      ("confirm", .jbool true)] }

/-- An edit_file request whose old_str does not occur in the target file. -/
def reqEditNoMatch : ToolUseReq :=
  { id := "tu_edit2", name := "edit_file",
    input := .jobj [("path", .jstr "f.txt"), ("old_str", .jstr "z"), ("new_str", .jstr "B")] }

/-- An edit_file request whose old_str occurs twice in the target file. -/
def reqEditTwo : ToolUseReq :=
  { id := "tu_edit3", name := "edit_file",
    input := .jobj [("path", .jstr "f.txt"), ("old_str", .jstr "b"), ("new_str", .jstr "B")] }

/- ## Theorems: diff engine (claim C1) -/

/-- Bounds carried by an accepted resynchronization: the sync point lies
    inside both texts and the lookahead consumed at least one line. -/
theorem findSync_spec {old new : List String} {i j oi ni : Nat}
    (hs : findSync old new i j = some (oi, ni)) :
    i + oi < old.length ∧ j + ni < new.length ∧ 1 ≤ oi + ni := by
  unfold findSync at hs
  obtain ⟨la, hla, hinner⟩ := List.exists_of_findSome?_eq_some hs
  unfold findSyncInner at hinner
  obtain ⟨oi2, hoi2, hif⟩ := List.exists_of_findSome?_eq_some hinner
  split at hif
  · rename_i hcond
    injection hif with hpair
    have hoi : oi2 = oi := congrArg Prod.fst hpair
    have hni : la - oi2 = ni := congrArg Prod.snd hpair
    unfold candidateOK at hcond
    split at hcond
    · rename_i hbound
      have h1a : 1 ≤ la := by
        obtain ⟨t, ht, hla2⟩ := List.mem_range'.mp hla
        omega
      have h2a : oi2 < la + 1 := List.mem_range.mp hoi2
      obtain ⟨hb1, hb2⟩ := hbound
      omega
    · exact absurd hcond (by simp)
  · exact absurd hif (by simp)

/-- Unfolding of the scan in the equal-lines case. -/
theorem computeChangesAux_adv (old new : List String) (i j : Nat)
    (h1 : i < old.length ∧ j < new.length ∧ old.getD i "" = new.getD j "") :
    computeChangesAux old new i j = computeChangesAux old new (i + 1) (j + 1) := by
  rw [computeChangesAux]
  rw [dif_pos h1]

/-- Unfolding of the scan when both texts are exhausted. -/
theorem computeChangesAux_done (old new : List String) (i j : Nat)
    (h1 : ¬(i < old.length ∧ j < new.length ∧ old.getD i "" = new.getD j ""))
    (h2 : old.length ≤ i ∧ new.length ≤ j) :
    computeChangesAux old new i j = [] := by
  rw [computeChangesAux]
  rw [dif_neg h1, dif_pos h2]

/-- Unfolding of the scan at a mismatch with an accepted resynchronization. -/
theorem computeChangesAux_sync (old new : List String) (i j oi ni : Nat)
    (h1 : ¬(i < old.length ∧ j < new.length ∧ old.getD i "" = new.getD j ""))
    (h2 : ¬(old.length ≤ i ∧ new.length ≤ j))
    (hs : findSync old new i j = some (oi, ni)) :
    computeChangesAux old new i j =
      { oldStart := i, oldCount := oi, newStart := j, newCount := ni,
        oldChunk := (old.drop i).take oi, newChunk := (new.drop j).take ni } ::
      computeChangesAux old new (i + oi) (j + ni) := by
  rw [computeChangesAux]
  rw [dif_neg h1, dif_neg h2]
  split
  · rename_i oi2 ni2 hs2
    rw [hs] at hs2
    injection hs2 with hp
    injection hp with hpa hpb
    subst hpa
    subst hpb
    rfl
  · rename_i hs2
    rw [hs] at hs2
    exact absurd hs2 (by simp)

/-- Unfolding of the scan at a mismatch with no resynchronization: the
    remainder of both texts becomes one final change. -/
theorem computeChangesAux_tail (old new : List String) (i j : Nat)
    (h1 : ¬(i < old.length ∧ j < new.length ∧ old.getD i "" = new.getD j ""))
    (h2 : ¬(old.length ≤ i ∧ new.length ≤ j))
    (hs : findSync old new i j = none) :
    computeChangesAux old new i j =
      [{ oldStart := i, oldCount := old.length - i, newStart := j,
         newCount := new.length - j, oldChunk := old.drop i, newChunk := new.drop j }] := by
  rw [computeChangesAux]
  rw [dif_neg h1, dif_neg h2]
  split
  · rename_i oi2 ni2 hs2
    rw [hs] at hs2
    exact absurd hs2 (by simp)
  · rfl

/-- Every change emitted from scan position i starts at or after i in the
    old text. -/
theorem computeChangesAux_oldStart_ge (old new : List String) (i j : Nat) :
    ∀ c ∈ computeChangesAux old new i j, i ≤ c.oldStart := by
  induction i, j using computeChangesAux.induct old new with
  | case1 i j h1 ih =>
    intro c hc
    rw [computeChangesAux_adv old new i j h1] at hc
    exact le_trans (Nat.le_succ i) (ih c hc)
  | case2 i j h1 h2 =>
    intro c hc
    rw [computeChangesAux_done old new i j h1 h2] at hc
    simp at hc
  | case3 i j h1 h2 oi ni hs ih =>
    intro c hc
    rw [computeChangesAux_sync old new i j oi ni h1 h2 hs] at hc
    rcases List.mem_cons.mp hc with rfl | hmem
    · simp
    · exact le_trans (Nat.le_add_right i oi) (ih c hmem)
  | case4 i j h1 h2 hs =>
    intro c hc
    rw [computeChangesAux_tail old new i j h1 h2 hs] at hc
    rcases List.mem_cons.mp hc with rfl | hmem
    · simp
    · simp at hmem

/-- Dropping from a position strictly inside the list exposes its head. -/
theorem drop_eq_getD_cons {old : List String} {i : Nat} (hi : i < old.length) :
    old.drop i = old.getD i "" :: old.drop (i + 1) := by
  rw [List.drop_eq_getElem_cons hi]
  congr 1
  simp [List.getD_eq_getElem?_getD, List.getElem?_eq_getElem hi]

/-- Application commutes with copying one unchanged line when every change
    starts strictly later. -/
theorem applyChangesFrom_cons_skip (old : List String) (i : Nat) (cs : List DiffChange)
    (hi : i < old.length) (hall : ∀ c ∈ cs, i + 1 ≤ c.oldStart) :
    applyChangesFrom old i cs = old.getD i "" :: applyChangesFrom old (i + 1) cs := by
  cases cs with
  | nil => simpa [applyChangesFrom] using drop_eq_getD_cons hi
  | cons c cs2 =>
    have h1 : i + 1 ≤ c.oldStart := hall c (List.mem_cons_self c cs2)
    have h2 : c.oldStart - i = (c.oldStart - (i + 1)) + 1 := by omega
    simp only [applyChangesFrom]
    rw [drop_eq_getD_cons hi, h2, List.take_succ_cons]
    simp

/-- Reconstruction invariant of the scan: applying the changes emitted from
    position (i, j) to the old suffix yields the new suffix. -/
theorem applyChangesFrom_computeChangesAux (old new : List String) (i j : Nat)
    (hi : i ≤ old.length) (hj : j ≤ new.length) :
    applyChangesFrom old i (computeChangesAux old new i j) = new.drop j := by
  revert hi hj
  induction i, j using computeChangesAux.induct old new with
  | case1 i j h1 ih =>
    intro hi hj
    rw [computeChangesAux_adv old new i j h1]
    rw [applyChangesFrom_cons_skip old i _ h1.1 (computeChangesAux_oldStart_ge old new (i + 1) (j + 1))]
    rw [ih (by omega) (by omega)]
    rw [drop_eq_getD_cons h1.2.1, h1.2.2]
  | case2 i j h1 h2 =>
    intro hi hj
    rw [computeChangesAux_done old new i j h1 h2]
    simp [applyChangesFrom, List.drop_eq_nil_of_le h2.1, List.drop_eq_nil_of_le h2.2]
  | case3 i j h1 h2 oi ni hs ih =>
    intro hi hj
    have hb := findSync_spec hs
    rw [computeChangesAux_sync old new i j oi ni h1 h2 hs]
    simp only [applyChangesFrom]
    rw [ih (by omega) (by omega)]
    rw [← List.drop_drop ni j new, Nat.sub_self]
    simp [List.take_append_drop]
  | case4 i j h1 h2 hs =>
    intro hi hj
    rw [computeChangesAux_tail old new i j h1 h2 hs]
    simp only [applyChangesFrom]
    have h3 : i + (old.length - i) = old.length := by omega
    simp [Nat.sub_self, h3, List.drop_length]

/-- Diffing a line sequence against itself from any diagonal position
    yields no changes. -/
theorem computeChangesAux_diag (L : List String) (i j : Nat) (hij : i = j) :
    computeChangesAux L L i j = [] := by
  revert hij
  induction i, j using computeChangesAux.induct L L with
  | case1 i j h1 ih =>
    intro hij
    rw [computeChangesAux_adv L L i j h1]
    exact ih (by omega)
  | case2 i j h1 h2 =>
    intro hij
    exact computeChangesAux_done L L i j h1 h2
  | case3 i j h1 h2 oi ni hs ih =>
    intro hij
    subst hij
    exfalso
    by_cases hlt : i < L.length
    · exact h1 ⟨hlt, hlt, rfl⟩
    · exact h2 ⟨by omega, by omega⟩
  | case4 i j h1 h2 hs =>
    intro hij
    subst hij
    exfalso
    by_cases hlt : i < L.length
    · exact h1 ⟨hlt, hlt, rfl⟩
    · exact h2 ⟨by omega, by omega⟩

/-- Claim C1: for every pair of texts A and B, the change list computed by
    the diff engine reconstructs B from A — applying each change in order,
    deleting its span of old lines and inserting its span of new lines,
    to A's line sequence yields exactly B's line sequence; and for every
    text A, diffing A against itself yields an empty change list, rendered
    as the explicit no-changes marker. -/
theorem c1_diff_reconstructs (A B path : String) :
    applyChanges (splitLines A) (computeChanges (splitLines A) (splitLines B)) = splitLines B ∧
    computeChanges (splitLines A) (splitLines A) = [] ∧
    generateDiff A A path 3 = "(no changes)" := by
  refine ⟨?_, ?_, ?_⟩
  · have h := applyChangesFrom_computeChangesAux (splitLines A) (splitLines B) 0 0
      (by omega) (by omega)
    simpa [applyChanges, computeChanges] using h
  · exact computeChangesAux_diag (splitLines A) 0 0 rfl
  · simp [generateDiff, computeChanges, computeChangesAux_diag (splitLines A) 0 0 rfl]

/- ## Theorems: conversation loop (claims C2, C3, C4, C5) -/

/-- The message list bridge between getD with the dummy default and the
    dependent get. -/
theorem getD_eq_get_msg (conv : List Message) (i : Nat) (h : i < conv.length) :
    conv.getD i dummyMsg = conv.get ⟨i, h⟩ := by
  simp [List.getD_eq_getElem?_getD, List.getElem?_eq_getElem h]

/-- Generic version of the head-exposing drop identity. -/
theorem drop_getD_cons {α : Type} (d : α) {l : List α} {i : Nat} (hi : i < l.length) :
    l.drop i = l.getD i d :: l.drop (i + 1) := by
  rw [List.drop_eq_getElem_cons hi]
  congr 1
  simp [List.getD_eq_getElem?_getD, List.getElem?_eq_getElem hi]

/-- A message satisfying the safe-boundary test is a plain-string user
    message. -/
theorem isPlainUser_eq (m : Message) (h : isPlainUser m = true) :
    ∃ t, m = { role := Role.user, content := MContent.str t } := by
  obtain ⟨role, content⟩ := m
  cases role with
  | user =>
    cases content with
    | str t => exact ⟨t, rfl⟩
    | blocks bs => simp [isPlainUser] at h
  | assistant => simp [isPlainUser] at h

/-- The last message of an append is read back by getD. -/
theorem getD_append_last (conv : List Message) (u : Message) :
    (conv ++ [u]).getD conv.length dummyMsg = u := by
  simp [List.getD_eq_getElem?_getD]

/-- Specification of the boundary walk: given enough fuel and a plain user
    message in range, the walk returns the first index at or after i
    holding one. -/
theorem findSafeBoundaryAux_spec (conv : List Message) :
    ∀ (fuel i : Nat), conv.length ≤ i + fuel →
      (∃ m, i ≤ m ∧ m < conv.length ∧ isPlainUser (conv.getD m dummyMsg) = true) →
      i ≤ findSafeBoundaryAux conv fuel i ∧
      findSafeBoundaryAux conv fuel i < conv.length ∧
      isPlainUser (conv.getD (findSafeBoundaryAux conv fuel i) dummyMsg) = true ∧
      ∀ j, i ≤ j → j < findSafeBoundaryAux conv fuel i →
        isPlainUser (conv.getD j dummyMsg) = false := by
  intro fuel
  induction fuel with
  | zero =>
    intro i hfuel hex
    obtain ⟨m, hm1, hm2, -⟩ := hex
    exfalso
    omega
  | succ fuel ih =>
    intro i hfuel hex
    obtain ⟨m, hm1, hm2, hm3⟩ := hex
    simp only [findSafeBoundaryAux]
    by_cases hlt : i < conv.length
    · rw [dif_pos hlt]
      by_cases hpu : isPlainUser (conv.get ⟨i, hlt⟩) = true
      · rw [if_pos hpu]
        refine ⟨Nat.le_refl i, hlt, ?_, ?_⟩
        · rw [getD_eq_get_msg conv i hlt]
          exact hpu
        · intro j hj1 hj2
          omega
      · rw [if_neg hpu]
        have hmi : i ≠ m := by
          intro he
          subst he
          rw [getD_eq_get_msg conv i hlt] at hm3
          exact hpu hm3
        have ih2 := ih (i + 1) (by omega) ⟨m, by omega, hm2, hm3⟩
        refine ⟨by omega, ih2.2.1, ih2.2.2.1, ?_⟩
        intro j hj1 hj2
        by_cases hji : j = i
        · subst hji
          rw [getD_eq_get_msg conv j hlt]
          simpa using hpu
        · exact ih2.2.2.2 j (by omega) hj2
    · exfalso
      omega

/-- The bounding step after appending a plain user message: it drops
    exactly to the earliest in-window plain-user boundary, which always
    exists because the appended message is one. -/
theorem boundConversation_append_spec (conv : List Message) (u : Message)
    (hu : isPlainUser u = true) (h : (conv ++ [u]).length > 50) :
    ∃ k, (conv ++ [u]).length - 50 ≤ k ∧ k < (conv ++ [u]).length ∧
      isPlainUser ((conv ++ [u]).getD k dummyMsg) = true ∧
      (∀ j, (conv ++ [u]).length - 50 ≤ j → j < k →
        isPlainUser ((conv ++ [u]).getD j dummyMsg) = false) ∧
      boundConversation (conv ++ [u]) = (conv ++ [u]).drop k := by
  set L := conv ++ [u] with hLdef
  have hlen : L.length = conv.length + 1 := by simp [hLdef]
  have hex : ∃ m, L.length - 50 ≤ m ∧ m < L.length ∧
      isPlainUser (L.getD m dummyMsg) = true := by
    refine ⟨conv.length, by omega, by omega, ?_⟩
    rw [hLdef, getD_append_last]
    exact hu
  have hspec := findSafeBoundaryAux_spec L (L.length - (L.length - 50)) (L.length - 50)
    (by omega) hex
  refine ⟨findSafeBoundary L (L.length - 50), hspec.1, hspec.2.1, hspec.2.2.1, hspec.2.2.2, ?_⟩
  rw [boundConversation, if_pos h]

/-- Claim C3: for every conversation to which the loop has just appended a
    plain user message, once the length exceeds 50 the bounding step
    produces a conversation whose first message is a user message with
    plain string content (never a tool-result-bearing user message). -/
theorem c3_truncation_head (conv : List Message) (s : String)
    (h : (conv ++ [userMsg s]).length > 50) :
    ∃ t rest, boundConversation (conv ++ [userMsg s]) = userMsg t :: rest := by
  obtain ⟨k, hk1, hk2, hk3, hk4, hk5⟩ := boundConversation_append_spec conv (userMsg s) rfl h
  obtain ⟨t, ht⟩ := isPlainUser_eq _ hk3
  refine ⟨t, (conv ++ [userMsg s]).drop (k + 1), ?_⟩
  rw [hk5, drop_getD_cons dummyMsg hk2, ht]
  rfl

/-- Claim C4: after appending a plain user message pushes the length past
    50, the bounding step truncates exactly at the earliest index at or
    after length - 50 holding a plain-text user message; such a boundary
    always exists inside the window (the just-appended message is one), so
    the no-boundary deferral case never arises. -/
theorem c4_bounding (conv : List Message) (s : String)
    (h : (conv ++ [userMsg s]).length > 50) :
    ∃ k, (conv ++ [userMsg s]).length - 50 ≤ k ∧ k < (conv ++ [userMsg s]).length ∧
      isPlainUser ((conv ++ [userMsg s]).getD k dummyMsg) = true ∧
      (∀ j, (conv ++ [userMsg s]).length - 50 ≤ j → j < k →
        isPlainUser ((conv ++ [userMsg s]).getD j dummyMsg) = false) ∧
      boundConversation (conv ++ [userMsg s]) = (conv ++ [userMsg s]).drop k :=
  boundConversation_append_spec conv (userMsg s) rfl h

/-- Witness for claim C3 at a concrete 51-message conversation. -/
theorem c3_witness :
    (conv50 ++ [userMsg "hi"]).length > 50 ∧
    ∃ t rest, boundConversation (conv50 ++ [userMsg "hi"]) = userMsg t :: rest :=
  ⟨by decide, c3_truncation_head conv50 "hi" (by decide)⟩

/-- Witness for claim C4 at a concrete 51-message conversation. -/
theorem c4_witness :
    (conv50 ++ [userMsg "hi"]).length > 50 ∧
    ∃ k, (conv50 ++ [userMsg "hi"]).length - 50 ≤ k ∧ k < (conv50 ++ [userMsg "hi"]).length ∧
      isPlainUser ((conv50 ++ [userMsg "hi"]).getD k dummyMsg) = true ∧
      (∀ j, (conv50 ++ [userMsg "hi"]).length - 50 ≤ j → j < k →
        isPlainUser ((conv50 ++ [userMsg "hi"]).getD j dummyMsg) = false) ∧
      boundConversation (conv50 ++ [userMsg "hi"]) = (conv50 ++ [userMsg "hi"]).drop k :=
  ⟨by decide, c4_bounding conv50 "hi" (by decide)⟩

/-- The tool-turn counter bounds the number of dispatched batches by what
    remains of the turn budget. -/
theorem runInferenceAux_dispatches_le (exec : List Block → List Block) :
    ∀ (responses : List Response) (conv : List Message) (toolTurns : Nat),
      (runInferenceAux exec conv toolTurns responses).dispatches ≤ MAX_TOOL_TURNS - toolTurns := by
  intro responses
  induction responses with
  | nil =>
    intro conv toolTurns
    simp [runInferenceAux]
  | cons r rest ih =>
    intro conv toolTurns
    simp only [runInferenceAux]
    split
    · split
      · simp
      · rename_i hcount
        have hrec := ih (conv ++ [{ role := .assistant, content := .blocks r.content },
          { role := .user, content := .blocks (exec (r.content.filter isToolUseBlock)) }])
          (toolTurns + 1)
        simp only at hrec ⊢
        omega
    · simp

/-- Claim C5: the orchestrator executes at most MAX_TOOL_TURNS = 10 tool
    batches within one user turn, whatever the backend and the tools do;
    and on a trace of 11 consecutive tool-use responses the turn-limit
    abort fires after exactly 10 dispatched batches, before the 11th (and
    a fortiori before a 12th) dispatch. -/
theorem c5_tool_turn_limit :
    (∀ (exec : List Block → List Block) (conv : List Message) (responses : List Response),
      (runInference exec conv responses).dispatches ≤ MAX_TOOL_TURNS) ∧
    (runInference execSimple [{ role := .user, content := .str "hi" }] responses11).aborted
      = true ∧
    (runInference execSimple [{ role := .user, content := .str "hi" }] responses11).dispatches
      = MAX_TOOL_TURNS := by
  refine ⟨?_, by decide, by decide⟩
  intro exec conv responses
  have h := runInferenceAux_dispatches_le exec responses conv 0
  simpa [runInference] using h

/-- Claim C2 (code-bug evidence): on eleven consecutive tool-use responses
    the turn-limit abort returns content still carrying tool_use blocks,
    and run appends it as an assistant message with no following
    tool-result user message, so the reachable conversation violates the
    pairing invariant. -/
theorem c2_pairing_violation :
    pairingOK
      ((runInference execSimple [{ role := .user, content := .str "hi" }] responses11).conv ++
        [{ role := .assistant,
           content := .blocks (runInference execSimple
             [{ role := .user, content := .str "hi" }] responses11).content }]) = false := by
  decide

/- ## Theorems: tool execution supervisor (claims C6, C7, C10) -/

/-- Every branch of the per-request pipeline answers with the request's own
    correlation id. -/
theorem executeToolOne_id (tools : List ToolDefM) (req : ToolUseReq) (approval : Option String)
    (race : RaceOutcome) : (executeToolOne tools req approval race).tool_use_id = req.id := by
  unfold executeToolOne
  split
  · rfl
  · split
    · rfl
    · split
      · rfl
      · split <;> rfl

/-- The batch result at position k is the pipeline applied to request k
    with its own oracles. -/
theorem executeTools_getD (tools : List ToolDefM) (reqs : List ToolUseReq)
    (approvals : Nat → Option String) (races : Nat → RaceOutcome) (k : Nat)
    (hk : k < reqs.length) :
    (executeTools tools reqs approvals races).getD k default =
      executeToolOne tools (reqs.getD k { id := "", name := "", input := .jnull })
        (approvals k) (races k) := by
  unfold executeTools
  rw [List.getD_eq_getElem?_getD, List.getElem?_map, List.getElem?_range hk]
  rfl

/-- A request that reaches the execution race and times out yields exactly
    the fixed timeout error result. -/
theorem executeToolOne_timedOut (tools : List ToolDefM) (req : ToolUseReq)
    (approval : Option String) (h : reachesExec tools req approval = true) :
    executeToolOne tools req approval .timedOut =
      { tool_use_id := req.id, content := "Tool execution timed out after 30s",
        is_error := true } := by
  unfold reachesExec at h
  unfold executeToolOne
  cases hfind : tools.find? (fun t => t.name == req.name) with
  | none =>
    rw [hfind] at h
    simp at h
  | some toolDef =>
    rw [hfind] at h
    simp only [hfind]
    cases hval : validateInput req.input toolDef.required with
    | some msg =>
      have h2 : ((validateInput req.input toolDef.required).isNone &&
          (!needsApproval req.name req.input || approvalGranted approval)) = true := h
      rw [hval] at h2
      simp at h2
    | none =>
      have h2 : ((validateInput req.input toolDef.required).isNone &&
          (!needsApproval req.name req.input || approvalGranted approval)) = true := h
      rw [hval] at h2
      simp only [Option.isNone_none, Bool.true_and] at h2
      have hgate : (needsApproval req.name req.input && !approvalGranted approval) = false := by
        cases hna : needsApproval req.name req.input <;>
          cases hga : approvalGranted approval <;> simp_all
      simp [hgate]

/-- Claim C6: a batch of N requests yields exactly N results; each result
    is a function of its own request and oracles alone (so one tool's
    timeout leaves every sibling result unaffected) and carries its
    request's tool_use_id; and a request that reaches execution and times
    out yields the error result with the fixed timeout message. -/
theorem c6_batch_results (tools : List ToolDefM) (reqs : List ToolUseReq)
    (approvals : Nat → Option String) (races : Nat → RaceOutcome) :
    (executeTools tools reqs approvals races).length = reqs.length ∧
    ∀ k, k < reqs.length →
      (executeTools tools reqs approvals races).getD k default =
        executeToolOne tools (reqs.getD k { id := "", name := "", input := .jnull })
          (approvals k) (races k) ∧
      ((executeTools tools reqs approvals races).getD k default).tool_use_id =
        (reqs.getD k { id := "", name := "", input := .jnull }).id ∧
      (races k = .timedOut →
        reachesExec tools (reqs.getD k { id := "", name := "", input := .jnull })
          (approvals k) = true →
        (executeTools tools reqs approvals races).getD k default =
          { tool_use_id := (reqs.getD k { id := "", name := "", input := .jnull }).id,
            content := "Tool execution timed out after 30s", is_error := true }) := by
  constructor
  · simp [executeTools]
  · intro k hk
    have hgd := executeTools_getD tools reqs approvals races k hk
    refine ⟨hgd, ?_, ?_⟩
    · rw [hgd]
      exact executeToolOne_id tools _ (approvals k) (races k)
    · intro hto hre
      rw [hgd, hto]
      exact executeToolOne_timedOut tools _ (approvals k) hre

/-- Witness for claim C6 on a two-request batch whose first request times
    out while the second completes. -/
theorem c6_witness :
    (executeTools toolCatalog [reqDT1, reqDT2] approvalsW racesW).length = 2 ∧
    (executeTools toolCatalog [reqDT1, reqDT2] approvalsW racesW).getD 0 default =
      { tool_use_id := "tu_1", content := "Tool execution timed out after 30s",
        is_error := true } ∧
    (executeTools toolCatalog [reqDT1, reqDT2] approvalsW racesW).getD 1 default =
      { tool_use_id := "tu_2", content := "ok", is_error := false } := by
  have h := c6_batch_results toolCatalog [reqDT1, reqDT2] approvalsW racesW
  refine ⟨h.1, ?_, ?_⟩
  · exact (h.2 0 (by decide)).2.2 (by decide) (by decide)
  · rw [(h.2 1 (by decide)).1]
    decide

/-- The approval gate only fires for the edit_file tool. -/
theorem needsApproval_name {name : String} {input : JVal}
    (h : needsApproval name input = true) : name = "edit_file" := by
  unfold needsApproval at h
  rw [Bool.and_eq_true] at h
  exact eq_of_beq h.1

/-- A declined approval short-circuits the edit_file pipeline into the
    cancellation error, with no write, whatever the file contains. -/
theorem superviseEditFS_cancelled (req : ToolUseReq) (approval : Option String)
    (fileContent : Option String)
    (hval : validateInput req.input ["path", "new_str"] = none)
    (hgate : needsApproval req.name req.input = true)
    (hdecl : approvalGranted approval = false) :
    superviseEditFS req approval fileContent =
      (.cancelled "Edit cancelled by user. The changes were not made.", none) := by
  have hname : req.name = "edit_file" := needsApproval_name hgate
  have hfind : toolCatalog.find? (fun t => t.name == req.name) =
      some { name := "edit_file", required := ["path", "new_str"] } := by
    rw [hname]
    rfl
  unfold superviseEditFS
  simp only [hfind, hval, hgate, hdecl]
  simp

/-- Claim C7: when the edit_file tool is invoked with confirm true and the
    operator declines, the supervisor returns the cancellation error
    ToolResult with is_error true, and — for every possible file content —
    the tool body is never consulted and no write is performed, so the
    on-disk bytes are unchanged. -/
theorem c7_decline_blocks_edit (req : ToolUseReq) (approval : Option String)
    (hval : validateInput req.input ["path", "new_str"] = none)
    (hgate : needsApproval req.name req.input = true)
    (hdecl : approvalGranted approval = false) :
    ∀ fileContent : Option String,
      superviseEditFS req approval fileContent =
        (.cancelled "Edit cancelled by user. The changes were not made.", none) ∧
      outcomeIsError (superviseEditFS req approval fileContent).1 = true ∧
      (superviseEditFS req approval fileContent).2 = none := by
  intro fileContent
  have h := superviseEditFS_cancelled req approval fileContent hval hgate hdecl
  refine ⟨h, ?_, ?_⟩ <;> rw [h] <;> rfl

/-- Witness for claim C7: a concrete confirm-true edit declined with the
    answer no. -/
theorem c7_witness :
    superviseEditFS reqEditConfirm (some "no") (some "a\nb\nc\n") =
      (.cancelled "Edit cancelled by user. The changes were not made.", none) ∧
    outcomeIsError (superviseEditFS reqEditConfirm (some "no") (some "a\nb\nc\n")).1 = true :=
  have h := c7_decline_blocks_edit reqEditConfirm (some "no") (by decide) (by decide) (by decide)
  ⟨(h (some "a\nb\nc\n")).1, (h (some "a\nb\nc\n")).2.1⟩

/-- Claim C10: approval is granted exactly when the next interactive line,
    trimmed and lowercased, is yes or y; any other text, the empty line and
    end-of-input all decline, and a decline produces the cancellation error
    result without running the edit. -/
theorem c10_approval_gate (approval : Option String) (req : ToolUseReq)
    (fileContent : Option String) :
    (approvalGranted approval = true ↔
      ∃ s, approval = some s ∧ (jsToLower (jsTrim s) = "yes" ∨ jsToLower (jsTrim s) = "y")) ∧
    (needsApproval req.name req.input = true →
      approvalGranted approval = false →
      validateInput req.input ["path", "new_str"] = none →
      superviseEditFS req approval fileContent =
        (.cancelled "Edit cancelled by user. The changes were not made.", none)) := by
  constructor
  · cases approval with
    | none => simp [approvalGranted]
    | some s =>
      simp only [approvalGranted, Bool.or_eq_true, beq_iff_eq]
      constructor
      · intro h
        exact ⟨s, rfl, h⟩
      · rintro ⟨s2, hs2, h⟩
        injection hs2 with he
        subst he
        exact h
  · intro hgate hdecl hval
    exact superviseEditFS_cancelled req approval fileContent hval hgate hdecl

/-- Witness for claim C10: the empty answer declines and cancels. -/
theorem c10_witness :
    approvalGranted (some "") = false ∧
    superviseEditFS reqEditConfirm (some "") (some "a\nb\nc\n") =
      (.cancelled "Edit cancelled by user. The changes were not made.", none) :=
  ⟨by decide, (c10_approval_gate (some "") reqEditConfirm (some "a\nb\nc\n")).2
    (by decide) (by decide) (by decide)⟩

/- ## Theorems: the edit_file tool (claims C8, C9) -/

/-- With a match target that is absent or ambiguous, the edit tool body
    returns the occurrence error as its result payload and requests no
    write, in every replace or insert mode and regardless of confirm. -/
theorem editFileExecute_bad_match (oldS newS inputPath : String) (modeIn : Option String)
    (confirm : Bool) (content : String)
    (hne : oldS ≠ "")
    (hmode : modeIn = none ∨ modeIn = some "replace" ∨ modeIn = some "insert_before" ∨
      modeIn = some "insert_after")
    (hpre : ¬((modeIn = none ∨ modeIn = some "replace") ∧ oldS = newS))
    (hocc : (jsSplit content oldS).length - 1 ≠ 1) :
    editFileExecute (some oldS) newS inputPath modeIn confirm (some content) =
      (.error (if (jsSplit content oldS).length - 1 = 0 then
          "String not found in " ++ sq ++ inputPath ++ sq ++
            ". Use read_file (with show_line_numbers and/or search) to check the current file contents and copy the exact text."
        else
          "Found " ++ toString ((jsSplit content oldS).length - 1) ++
            " occurrences of old_str in " ++ sq ++ inputPath ++ sq ++
            ". Include more surrounding context in old_str to match exactly one location."),
        none) := by
  rcases hmode with rfl | rfl | rfl | rfl
  · have hS : oldS ≠ newS := fun he => hpre ⟨Or.inl rfl, he⟩
    by_cases hz : (jsSplit content oldS).length - 1 = 0
    · simp [editFileExecute, hz, hne, hS]
    · have hgt : 1 < (jsSplit content oldS).length - 1 := by omega
      simp [editFileExecute, hz, hne, hS, hgt]
  · have hS : oldS ≠ newS := fun he => hpre ⟨Or.inr rfl, he⟩
    by_cases hz : (jsSplit content oldS).length - 1 = 0
    · simp [editFileExecute, hz, hne, hS]
    · have hgt : 1 < (jsSplit content oldS).length - 1 := by omega
      simp [editFileExecute, hz, hne, hS, hgt]
  · by_cases hz : (jsSplit content oldS).length - 1 = 0
    · simp [editFileExecute, hz, hne]
    · have hgt : 1 < (jsSplit content oldS).length - 1 := by omega
      simp [editFileExecute, hz, hne, hgt]
  · by_cases hz : (jsSplit content oldS).length - 1 = 0
    · simp [editFileExecute, hz, hne]
    · have hgt : 1 < (jsSplit content oldS).length - 1 := by omega
      simp [editFileExecute, hz, hne, hgt]

/-- When the gate does not fire, the supervisor reports the edit tool
    body's own result as a completed (unflagged) outcome and forwards its
    write request. -/
theorem superviseEditFS_completed (req : ToolUseReq) (approval : Option String)
    (fileContent : Option String)
    (hname : req.name = "edit_file")
    (hval : validateInput req.input ["path", "new_str"] = none)
    (hgate : (needsApproval req.name req.input && !approvalGranted approval) = false) :
    superviseEditFS req approval fileContent =
      (.completed (editFileExecute (getStrField req.input "old_str")
          ((getStrField req.input "new_str").getD "")
          ((getStrField req.input "path").getD "")
          (getStrField req.input "mode") (confirmTruthy req.input) fileContent).1,
        (editFileExecute (getStrField req.input "old_str")
          ((getStrField req.input "new_str").getD "")
          ((getStrField req.input "path").getD "")
          (getStrField req.input "mode") (confirmTruthy req.input) fileContent).2) := by
  have hfind : toolCatalog.find? (fun t => t.name == req.name) =
      some { name := "edit_file", required := ["path", "new_str"] } := by
    rw [hname]
    rfl
  unfold superviseEditFS
  simp only [hfind, hval, hgate]
  simp

/-- Claim C8 (amended): asking edit_file to edit an existing file in a
    replace or insert mode with an old_str occurring zero times or more
    than once performs no write, and the supervisor passes the failure back
    as a ToolResult whose payload carries the underlying occurrence error
    message — but with is_error left unset (false), because the tool
    returns the error as a JSON payload instead of throwing. -/
theorem c8_no_write_on_bad_match (req : ToolUseReq) (approval : Option String)
    (content oldS : String)
    (hname : req.name = "edit_file")
    (hval : validateInput req.input ["path", "new_str"] = none)
    (hgate : (needsApproval req.name req.input && !approvalGranted approval) = false)
    (hold : getStrField req.input "old_str" = some oldS)
    (hne : oldS ≠ "")
    (hmode : getStrField req.input "mode" = none ∨
      getStrField req.input "mode" = some "replace" ∨
      getStrField req.input "mode" = some "insert_before" ∨
      getStrField req.input "mode" = some "insert_after")
    (hpre : ¬((getStrField req.input "mode" = none ∨
        getStrField req.input "mode" = some "replace") ∧
      oldS = (getStrField req.input "new_str").getD ""))
    (hocc : (jsSplit content oldS).length - 1 ≠ 1) :
    (superviseEditFS req approval (some content)).2 = none ∧
    (superviseEditFS req approval (some content)).1 =
      .completed (.error (if (jsSplit content oldS).length - 1 = 0 then
          "String not found in " ++ sq ++ (getStrField req.input "path").getD "" ++ sq ++
            ". Use read_file (with show_line_numbers and/or search) to check the current file contents and copy the exact text."
        else
          "Found " ++ toString ((jsSplit content oldS).length - 1) ++
            " occurrences of old_str in " ++ sq ++ (getStrField req.input "path").getD "" ++
            sq ++
            ". Include more surrounding context in old_str to match exactly one location.")) ∧
    outcomeIsError (superviseEditFS req approval (some content)).1 = false := by
  have hsup := superviseEditFS_completed req approval (some content) hname hval hgate
  rw [hold] at hsup
  rw [editFileExecute_bad_match oldS ((getStrField req.input "new_str").getD "")
    ((getStrField req.input "path").getD "") (getStrField req.input "mode")
    (confirmTruthy req.input) content hne hmode hpre hocc] at hsup
  rw [hsup]
  exact ⟨rfl, rfl, rfl⟩

/-- Claim C8 counterexample: a concrete zero-occurrence edit produces no
    write and a result carrying the not-found message, but the supervisor
    does not flag it as an error ToolResult — is_error stays false,
    refuting the claim as stated. -/
theorem c8_counterexample :
    (superviseEditFS reqEditNoMatch none (some "a\nb\nc\n")).2 = none ∧
    (superviseEditFS reqEditNoMatch none (some "a\nb\nc\n")).1 =
      .completed (.error ("String not found in " ++ sq ++ "f.txt" ++ sq ++
        ". Use read_file (with show_line_numbers and/or search) to check the current file contents and copy the exact text.")) ∧
    outcomeIsError (superviseEditFS reqEditNoMatch none (some "a\nb\nc\n")).1 = false := by
  exact ⟨by decide, by decide, by decide⟩

/-- Witness for claim C8 at a concrete two-occurrence edit. -/
theorem c8_witness :
    (superviseEditFS reqEditTwo (some "x") (some "a\nb\nb\n")).2 = none ∧
    outcomeIsError (superviseEditFS reqEditTwo (some "x") (some "a\nb\nb\n")).1 = false := by
  have h := c8_no_write_on_bad_match reqEditTwo (some "x") "a\nb\nb\n" "b"
    (by decide) (by decide) (by decide) (by decide) (by decide)
    (by decide) (by decide) (by decide)
  exact ⟨h.1, h.2.2⟩

/-- The change list of the C9 scenario diff: line 2 replaced. -/
theorem computeChanges_c9 :
    computeChanges ["a", "b", "c", ""] ["a", "B", "c", ""] =
      [{ oldStart := 1, oldCount := 1, newStart := 1, newCount := 1,
         oldChunk := ["b"], newChunk := ["B"] }] := by
  unfold computeChanges
  rw [computeChangesAux_adv _ _ 0 0 (by decide)]
  rw [computeChangesAux_sync _ _ 1 1 1 1 (by decide) (by decide) (by decide)]
  rw [computeChangesAux_adv _ _ 2 2 (by decide)]
  rw [computeChangesAux_adv _ _ 3 3 (by decide)]
  rw [computeChangesAux_done _ _ 4 4 (by decide) (by decide)]
  decide

/-- Claim C9 counterexample: the confirmed call reports change_location
    start_line 1 and end_line 4 — the context snippet bounds — and in
    particular not line 2 as claimed. -/
theorem c9_counterexample :
    resultChangeLoc (editFileExecute (some "b") "B" "f.txt" none true (some "a\nb\nc\n")).1 =
      some (1, 4) ∧
    resultChangeLoc (editFileExecute (some "b") "B" "f.txt" none true (some "a\nb\nc\n")).1 ≠
      some (2, 2) := by
  exact ⟨by decide, by decide⟩

set_option maxRecDepth 8000 in
/-- Claim C9 (amended): on file content "a\nb\nc\n", the edit call with
    old_str b and new_str B and no confirm writes nothing and returns a
    preview whose diff shows line 2 removed and line 2 added; the same call
    with confirm true rewrites the file to exactly "a\nB\nc\n" and returns
    a success result with the action replaced, whose change_location
    carries the context snippet bounds start_line 1 and end_line 4 (the
    changed line 2 plus up to three context lines clamped to the file)
    rather than line 2 itself. -/
theorem c9_scenario :
    (editFileExecute (some "b") "B" "f.txt" none false (some "a\nb\nc\n")).2 = none ∧
    (∃ d, (editFileExecute (some "b") "B" "f.txt" none false (some "a\nb\nc\n")).1 =
        .preview "replaced" "f.txt" d 1 4
          ("Set " ++ sq ++ "confirm: true" ++ sq ++ " to write these changes.") ∧
      (jsSplit d "\n").contains "   2 │ - b" = true ∧
      (jsSplit d "\n").contains "   2 │ + B" = true) ∧
    (editFileExecute (some "b") "B" "f.txt" none true (some "a\nb\nc\n")).2 =
      some "a\nB\nc\n" ∧
    (editFileExecute (some "b") "B" "f.txt" none true (some "a\nb\nc\n")).1 =
      .success "replaced" "f.txt" 1 4 "1 | a\n2 | B\n3 | c\n4 | " := by
  have hdiff : stripAnsiForAgentJson (generateDiff "a\nb\nc\n" "a\nB\nc\n" "f.txt" 3) =
      String.intercalate "\n" [hrule, " f.txt", hrule, "",
        "@@ Lines before & after: 1-4 → 1-4 @@", "   1 │   a", "   2 │ - b", "   2 │ + B",
        "   3 │   c", "   4 │   ", "", hrule] := by
    have h1 : splitLines "a\nb\nc\n" = ["a", "b", "c", ""] := by decide
    have h2 : splitLines "a\nB\nc\n" = ["a", "B", "c", ""] := by decide
    simp only [generateDiff, h1, h2, computeChanges_c9]
    decide
  refine ⟨by decide, ?_, by decide, by decide⟩
  refine ⟨stripAnsiForAgentJson (generateDiff "a\nb\nc\n" "a\nB\nc\n" "f.txt" 3), rfl, ?_, ?_⟩
  · rw [hdiff]
    decide
  · rw [hdiff]
    decide

end DiyAgent
